import Mathlib

/-!
# Verification of the CodeGenerator core of cppinsights

A shallow embedding of `src/CodeGenerator.cpp` (the tree-to-text desugaring
code generator).  Each C++ routine that a claim depends on is translated into
a Lean definition; output emission is modelled as a pure function producing a
list of output events (or strings), and diagnostics as an accumulated list.
Definitions come first, theorems follow.
-/

namespace Insights

/-! ## Output events

`OutputFormatHelper` calls are modelled as an event list: `Append`,
`AppendNewLine`, a bare newline, and the scope open/close helpers. -/

inductive OutEvent where
  | append (s : String)
  | appendNewLine (s : String)
  | newLine
  | openScope
  | closeScope
  | closeScopeNoNewLineBefore
  | closeScopeWithSemi
  deriving DecidableEq, Repr

/-! ## Lambda scope stack (`CodeGenerator::LambdaScopeHandler`)

`LambdaCallerType` lists the trigger kinds used by `LAMBDA_SCOPE_HELPER`
call sites in `CodeGenerator.cpp`. -/

inductive LambdaCallerType where
  | LambdaExpr
  | CallExpr
  | VarDecl
  | ReturnStmt
  | OperatorCallExpr
  | MemberCallExpr
  | BinaryOperator
  deriving DecidableEq, Repr

/-- A `LambdaHelper` entry of the lambda stack: its trigger kind and (a handle
to) the output buffer bound when the entry was pushed.  Buffers are identified
by handles (`Nat`); `CodeGenerator.cpp` only ever stores references. -/
structure LambdaHelper where
  callerType : LambdaCallerType
  bufferId : Nat
  deriving DecidableEq, Repr

/-- The `switch` inside `LambdaScopeHandler::GetBuffer`: the trigger kinds that
anchor placement of a synthesized lambda class definition. -/
def anchorsPlacement : LambdaCallerType → Bool
  | .CallExpr => true
  | .VarDecl => true
  | .ReturnStmt => true
  | .OperatorCallExpr => true
  | .MemberCallExpr => true
  | .BinaryOperator => true
  | _ => false

/-- `CodeGenerator::LambdaScopeHandler::GetBuffer`: walk the existing stack in
iteration order and return the buffer of the first entry whose trigger kind is
a placement-anchoring kind; if none matches, return the ambient output buffer
(`outputFormatHelper`).  The stack is given in iteration order of the C++
loop `for(auto& l : mStack)`. -/
def GetBuffer : List LambdaHelper → Nat → Nat
  | [], ambient => ambient
  | l :: rest, ambient =>
      if anchorsPlacement l.callerType then l.bufferId else GetBuffer rest ambient

/-! ## Range-based for lowering (`CodeGenerator::InsertArg(const CXXForRangeStmt*)`)

The children of a `CXXForRangeStmt` (the range/begin/end declaration
statements, the resolved condition, the resolved increment, the loop-variable
declaration) are lowered recursively; their lowered text is opaque here, so
each is carried as a string.  The front end resolves `cond`/`inc` against the
synthesized `__begin`/`__end` declarations, which is why the emitted loop
header references these and not the original range expression.  The body is
inspected only through `isa<CompoundStmt>` and `isa<NullStmt>`, which the
`BodyStmt` variants mirror. -/

/-- A statement inside a compound body, reduced to its lowered text and the
predicate `!isa<IfStmt> && !isa<ForStmt> && !isa<DeclStmt>` that
`HandleCompoundStmt` uses to decide whether to append a `;`. -/
structure PlainStmt where
  text : String
  needsSemiInCompound : Bool
  deriving DecidableEq, Repr

inductive BodyStmt where
  | compound (items : List PlainStmt)
  | null
  | plain (s : PlainStmt)
  deriving DecidableEq, Repr

def isBodyBraced : BodyStmt → Bool
  | .compound _ => true
  | _ => false

def isNullStmt : BodyStmt → Bool
  | .null => true
  | _ => false

/-- `CodeGenerator::HandleCompoundStmt`: emit each item, appending `;` with a
newline unless the item is an if/for/decl statement. -/
def HandleCompoundStmtEvents (items : List PlainStmt) : List OutEvent :=
  items.flatMap fun s =>
    [OutEvent.append s.text] ++
      (if s.needsSemiInCompound then [OutEvent.appendNewLine ";"] else [])

/-- `CodeGenerator::InsertArg` on a body statement: a compound statement opens
a scope around `HandleCompoundStmt`, a null statement emits `;` with a
newline, and any other statement emits its lowered text. -/
def InsertArgBodyStmt : BodyStmt → List OutEvent
  | .compound items =>
      [OutEvent.openScope] ++ HandleCompoundStmtEvents items ++
        [OutEvent.closeScopeNoNewLineBefore]
  | .null => [OutEvent.appendNewLine ";"]
  | .plain s => [OutEvent.append s.text]

/-- A `CXXForRangeStmt` as far as the lowering inspects it. -/
structure CXXForRangeStmt where
  rangeDeclText : String
  beginDeclText : String
  endDeclText : String
  condText : String
  incText : String
  loopVarText : String
  body : BodyStmt
  deriving DecidableEq, Repr

/-- `CodeGenerator::InsertArg(const CXXForRangeStmt*)`, translated event by
event from the source. -/
def InsertArgCXXForRangeStmt (s : CXXForRangeStmt) : List OutEvent :=
  [OutEvent.openScope] ++
  [OutEvent.append s.rangeDeclText, OutEvent.append s.beginDeclText,
    OutEvent.append s.endDeclText] ++
  [OutEvent.newLine] ++
  [OutEvent.append "for( ; ", OutEvent.append s.condText, OutEvent.append "; ",
    OutEvent.append s.incText, OutEvent.appendNewLine " )"] ++
  [OutEvent.openScope] ++
  [OutEvent.append s.loopVarText] ++
  (match s.body with
   | .compound items => HandleCompoundStmtEvents items
   | b => InsertArgBodyStmt b) ++
  (if !isBodyBraced s.body && !isNullStmt s.body then [OutEvent.appendNewLine ";"]
   else []) ++
  [OutEvent.closeScopeNoNewLineBefore, OutEvent.closeScope]

/-! ## Guarded static-local lowering
(`CodeGenerator::HandleLocalStaticNonTrivialClass`) -/

/-- Modelled from the spec: `BuildInternalVarName` (declared in a header
outside this translation unit) derives an internal identifier
deterministically from the original name alone in its one-argument form. -/
def BuildInternalVarName (varName : String) : String := "__" ++ varName

/-- Modelled from the spec: the location-taking overload of
`BuildInternalVarName` additionally appends the source line number, giving a
name that is a deterministic function of (original name, source location). -/
def BuildInternalVarNameLoc (varName : String) (line : Nat) : String :=
  "__" ++ varName ++ Nat.repr line

/-- `CodeGenerator::HandleLocalStaticNonTrivialClass`, translated line by
line. -/
def HandleLocalStaticNonTrivialClass (varName typeName : String) : List OutEvent :=
  let internalVarName := BuildInternalVarName varName
  let compilerBoolVarName := internalVarName ++ "B"
  [OutEvent.appendNewLine ("static bool " ++ compilerBoolVarName ++ ";"),
   OutEvent.appendNewLine
     ("static char " ++ internalVarName ++ "[sizeof(" ++ typeName ++ ")];"),
   OutEvent.newLine,
   OutEvent.appendNewLine ("if( ! " ++ compilerBoolVarName ++ " )"),
   OutEvent.openScope,
   OutEvent.appendNewLine ("new (&" ++ internalVarName ++ ") " ++ typeName ++ ";"),
   OutEvent.appendNewLine (compilerBoolVarName ++ " = true;"),
   OutEvent.closeScopeNoNewLineBefore,
   OutEvent.newLine]

/-- Runtime meaning of the emitted guarded pattern
`if( ! guard ) { new (&buf) T; guard = true; }`: one simulated call of the
enclosing function, acting on (guard, number of constructions so far). -/
def staticInitCall (s : Bool × Nat) : Bool × Nat :=
  if !s.1 then (true, s.2 + 1) else s

/-- State after `n` simulated calls, starting from a false guard and zero
constructions. -/
def staticInitCalls : Nat → Bool × Nat
  | 0 => (false, 0)
  | n + 1 => staticInitCall (staticInitCalls n)

/-! ## Lambda lowering (`CodeGenerator::HandleLambdaExpr`)

Braces that occur inside generated text are written with `\x7b` / `\x7d`
escapes. -/

/-- A type as the capture lowering inspects it: its pretty-printed name
(`GetName`), `isLValueReferenceType`-ness and `isArrayType`-ness. -/
structure CppType where
  name : String
  isReferenceType : Bool
  isArrayType : Bool
  deriving DecidableEq, Repr

/-- Character-level worker for `InsertBefore`: insert `ins` before the first
occurrence of `pat`; with no occurrence the insertion lands at the end. -/
def insertBeforeList (src pat ins : List Char) : List Char :=
  match src with
  | [] => ins
  | c :: rest =>
      if pat.isPrefixOf (c :: rest) then ins ++ c :: rest
      else c :: insertBeforeList rest pat ins

/-- Modelled from the spec: `InsertBefore` (a string helper declared outside
this translation unit) inserts `replace` into `source` before the first
occurrence of `find`; the lambda lowering uses it to build the
parenthesized array-declarator form. -/
def InsertBefore (source find replace : String) : String :=
  String.mk (insertBeforeList source.data find.data replace.data)

/-- `GetCaptureTypeNameAsParameter` from `CodeGenerator.cpp`: array types get
the `(&name)` declarator inserted before the first `[` of the type name,
other types keep their plain name. -/
def GetCaptureTypeNameAsParameter (t : CppType) (varName : String) : String :=
  if t.isArrayType then InsertBefore t.name "[" ("(&" ++ varName ++ ")")
  else t.name

/-- `LambdaCaptureKind` mirrors clang's `LCK_*` enumeration. -/
inductive LambdaCaptureKind where
  | This
  | StarThis
  | ByCopy
  | ByRef
  | VLAType
  deriving DecidableEq, Repr

/-- One lambda capture together with the information `HandleLambdaExpr` reads
off the capture and its parallel capture initializer. -/
structure LambdaCapture where
  kind : LambdaCaptureKind
  capturesVariable : Bool
  capturesThis : Bool
  capturesVLAType : Bool
  varName : String
  varType : CppType
  thisInitType : CppType
  hasInit : Bool
  initText : String
  deriving DecidableEq, Repr

/-- The accumulating state of the capture loop of `HandleLambdaExpr`:
`first`, `ctorRequired`, the `ctor`/`ctorInits`/`inits` strings, the field
events appended to the class-body buffer, and the diagnostics channel. -/
structure LambdaCtorState where
  first : Bool
  ctorRequired : Bool
  ctor : String
  ctorInits : String
  inits : String
  classBody : List OutEvent
  diags : List String
  deriving DecidableEq, Repr

/-- Initial state of the capture loop (the `ctor`/`ctorInits`/`inits`
initializers right before the loop). -/
def lambdaCtorInit (lambdaTypeName : String) : LambdaCtorState :=
  { first := true
    ctorRequired := false
    ctor := "public: " ++ lambdaTypeName ++ "("
    ctorInits := ": "
    inits := "\x7b"
    classBody := []
    diags := [] }

/-- One iteration of the capture loop of `HandleLambdaExpr`, translated
statement by statement. -/
def processLambdaCapture (st : LambdaCtorState) (c : LambdaCapture) : LambdaCtorState :=
  let st := { st with ctorRequired := true }
  if !c.capturesVariable && !c.capturesThis then
    if !c.capturesVLAType then { st with diags := st.diags ++ ["no capture var"] }
    else st
  else
    let st :=
      if st.first then
        { st with first := false, classBody := st.classBody ++ [OutEvent.newLine] }
      else
        { st with ctor := st.ctor ++ ", ", inits := st.inits ++ ", ",
                  ctorInits := st.ctorInits ++ "\n, " }
    let varType := if c.capturesThis then c.thisInitType else c.varType
    let varNamePlain := if c.capturesThis then "this" else c.varName
    let varName := if c.capturesThis then "__" ++ varNamePlain else varNamePlain
    let varTypeName := GetCaptureTypeNameAsParameter varType varNamePlain
    let ctorVarTypeName := GetCaptureTypeNameAsParameter varType ("_" ++ varNamePlain)
    let st := { st with ctor := st.ctor ++ ctorVarTypeName,
                        classBody := st.classBody ++ [OutEvent.append varTypeName] }
    let st :=
      match c.kind with
      | .ByRef =>
          if !varType.isReferenceType && !varType.isArrayType then
            { st with ctor := st.ctor ++ "&",
                      classBody := st.classBody ++ [OutEvent.append "&"] }
          else st
      | _ => st
    let st :=
      if !c.capturesThis && c.hasInit && (c.kind matches .ByCopy) then
        { st with inits := st.inits ++ c.initText }
      else
        { st with inits :=
            st.inits ++ (if c.kind matches .StarThis then "*" else "") ++ varNamePlain }
    let st :=
      if !varType.isArrayType then
        { st with ctor := st.ctor ++ " _" ++ varName,
                  classBody := st.classBody ++ [OutEvent.appendNewLine (" " ++ varName ++ ";")] }
      else
        { st with classBody := st.classBody ++ [OutEvent.appendNewLine ";"] }
    { st with ctorInits := st.ctorInits ++ varName ++ "\x7b_" ++ varName ++ "\x7d" }

/-- Result of `HandleLambdaExpr` together with the tail of
`InsertArg(const LambdaExpr*)`: the events written to the chosen buffer, and
the constructor-argument text that is either appended inline at the use site
or deferred through the enclosing lambda helper. -/
structure LambdaEmission where
  classEvents : List OutEvent
  deferredInits : Option String
  initsText : String
  diags : List String
  deriving DecidableEq, Repr

/-- `CodeGenerator::HandleLambdaExpr`: class head, method section (opaque
here, passed through as `methodEvents`), `private:` section with one field
per capture, the optional constructor, and the use-site construction text.
The `deferredInits` alternative models `mLambdaStack.back().inits().append`. -/
def HandleLambdaExprModel (lambdaTypeName : String) (methodEvents : List OutEvent)
    (callerType : LambdaCallerType) (captures : List LambdaCapture) : LambdaEmission :=
  let st := captures.foldl processLambdaCapture (lambdaCtorInit lambdaTypeName)
  let ctor := st.ctor ++ ")"
  let inits := st.inits ++ "\x7d"
  let events :=
    [OutEvent.newLine, OutEvent.appendNewLine ("class " ++ lambdaTypeName),
      OutEvent.openScope] ++
    methodEvents ++
    (if captures.length != 0 then [OutEvent.newLine, OutEvent.append "private:"]
     else []) ++
    st.classBody ++
    (if st.ctorRequired then
      [OutEvent.appendNewLine "", OutEvent.appendNewLine ctor,
        OutEvent.appendNewLine st.ctorInits, OutEvent.appendNewLine "\x7b\x7d"]
     else []) ++
    [OutEvent.closeScope]
  if callerType != LambdaCallerType.VarDecl && callerType != LambdaCallerType.CallExpr then
    { classEvents := events ++
        [OutEvent.append (" " ++ lambdaTypeName ++ inits), OutEvent.appendNewLine ";",
          OutEvent.newLine]
      deferredInits := none
      initsText := inits
      diags := st.diags }
  else
    { classEvents := events ++ [OutEvent.appendNewLine ";", OutEvent.newLine]
      deferredInits := some inits
      initsText := inits
      diags := st.diags }

/-! ## Character literals (`CodeGenerator::HandleCharacterLiteral`) -/

inductive CharacterLiteralKind where
  | Ascii
  | Wide
  | UTF8
  | UTF16
  | UTF32
  deriving DecidableEq, Repr

/-- The encoding prefix emitted by the first `switch` of
`HandleCharacterLiteral` (`Ascii` emits nothing). -/
def encodingMark : CharacterLiteralKind → String
  | .Ascii => ""
  | .Wide => "L"
  | .UTF8 => "u8"
  | .UTF16 => "u"
  | .UTF32 => "U"

/-- clang's `isPrintable` over `unsigned char`: space and the graphic ASCII
characters, i.e. 0x20 through 0x7E. -/
def isPrintable (c : Nat) : Bool := 32 ≤ c && c ≤ 126

/-- The masking step of the `default:` branch: `value &= 0xFF` when the upper
24 bits of the 32-bit `unsigned` value are all ones and the literal kind is
`Ascii` (a sign-extended plain char). -/
def maskedCharValue (kind : CharacterLiteralKind) (value : Nat) : Nat :=
  if Nat.land value 4294967040 = 4294967040 ∧ kind = CharacterLiteralKind.Ascii then
    Nat.land value 255
  else value

/-- The single-quote character of a C++ character literal. -/
def sq : String := String.singleton (Char.ofNat 39)

/-- A backslash. -/
def bsl : String := String.singleton (Char.ofNat 92)

/-- `CodeGenerator::HandleCharacterLiteral`: encoding prefix, then the value
`switch` — ten specially escaped characters, and a `default:` branch that
masks sign-extended plain chars and prints the character only when it is
below 256 and printable, emitting nothing otherwise. -/
def HandleCharacterLiteral (kind : CharacterLiteralKind) (value : Nat) : String :=
  encodingMark kind ++
  (if value = 92 then sq ++ bsl ++ bsl ++ sq
   else if value = 0 then sq ++ bsl ++ "0" ++ sq
   else if value = 39 then sq ++ bsl ++ sq ++ sq
   else if value = 7 then sq ++ bsl ++ "a" ++ sq
   else if value = 8 then sq ++ bsl ++ "b" ++ sq
   else if value = 12 then sq ++ bsl ++ "f" ++ sq
   else if value = 10 then sq ++ bsl ++ "n" ++ sq
   else if value = 13 then sq ++ bsl ++ "r" ++ sq
   else if value = 9 then sq ++ bsl ++ "t" ++ sq
   else if value = 11 then sq ++ bsl ++ "v" ++ sq
   else
     let v := maskedCharValue kind value
     if v < 256 ∧ isPrintable v = true then sq ++ String.singleton (Char.ofNat v) ++ sq
     else "")

/-! ## Expressions and structured-binding (decomposition) lowering

A small expression tree covering the node kinds that
`CodeGenerator::InsertArg(const DecompositionDecl*)`, `FindDeclRef` and the
`StructuredBindingsCodeGenerator` inspect.  A `declRef` carries the `GetName`
result and the rendered template-argument text; a `member` carries the
rendered member name after its base (the lambda-static-invoke member rewrite
never occurs inside a decomposition); a `lit` is any further leaf with its
rendered text; an `opaqueValue` is an `OpaqueValueExpr` over its source
expression — it renders through the source but exposes no children to AST
traversals; `arrayInitLoop` carries the source expression of its common
`OpaqueValueExpr`, its array size and its per-element subexpression. -/

inductive Expr where
  | declRef (name targs : String)
  | member (base : Expr) (isArrow : Bool) (memberText : String)
  | arraySubscript (lhs rhs : Expr)
  | lit (text : String)
  | exprWithCleanups (sub : Expr)
  | call (callee : Expr) (args : List Expr)
  | opaqueValue (source : Expr)
  | arrayInitLoop (commonSource : Expr) (size : Nat) (sub : Expr)
  | arrayInitIndex

/-- The rendering mode: the base `CodeGenerator`, the
`StructuredBindingsCodeGenerator` (which substitutes the synthesized
temporary for name references whose printed name is empty or ends in `::`),
and the `ArrayInitCodeGenerator` (which prints its index for
`ArrayInitIndexExpr`). -/
inductive RenderMode where
  | normal
  | structuredBindings (tmpName : String)
  | arrayInit (idx : Nat)
  deriving DecidableEq, Repr

/-- Comma-join of argument texts, as `ForEachArg` separates arguments. -/
def joinCommaSep : List String → String
  | [] => ""
  | [s] => s
  | s :: rest => s ++ ", " ++ joinCommaSep rest

mutual

/-- Recursive rendering of an expression, combining
`CodeGenerator::InsertArg` on the covered node kinds with the virtual
overrides of the two sub-generators.  `ArrayInitLoopExpr` always constructs a
fresh `ArrayInitCodeGenerator` per element, so rendering its subexpression
switches to `arrayInit` mode regardless of the current mode;
`ArrayInitIndexExpr` outside that mode emits nothing (the source reports a
diagnostic there and appends no text). -/
def render (mode : RenderMode) (e : Expr) : String :=
  match e with
  | .declRef name targs =>
      match mode with
      | .structuredBindings tmpName =>
          name ++ (if name = "" || name.endsWith "::" then tmpName else targs)
      | _ => name ++ targs
  | .member b arrow mtext => render mode b ++ (if arrow then "->" else ".") ++ mtext
  | .arraySubscript l r => render mode l ++ "[" ++ render mode r ++ "]"
  | .lit t => t
  | .exprWithCleanups s => render mode s
  | .call f args => render mode f ++ "(" ++ joinCommaSep (renderList mode args) ++ ")"
  | .opaqueValue s => render mode s
  | .arrayInitLoop _ size sub => "\x7b" ++ joinCommaSep (renderInits sub size) ++ "\x7d"
  | .arrayInitIndex =>
      match mode with
      | .arrayInit idx => Nat.repr idx
      | _ => ""
termination_by (sizeOf e, 0)

def renderList (mode : RenderMode) (l : List Expr) : List String :=
  match l with
  | [] => []
  | e :: es => render mode e :: renderList mode es
termination_by (sizeOf l, 0)

def renderInits (sub : Expr) (n : Nat) : List String :=
  match n with
  | 0 => []
  | m + 1 => renderInits sub m ++ [render (RenderMode.arrayInit m) sub]
termination_by (sizeOf sub + n, 1)

end

mutual

/-- `FindDeclRef` from `CodeGenerator.cpp`: return the first `DeclRefExpr`
found by the children traversal, with the special case that an
`ArrayInitLoopExpr` checks whether the source expression of its common
`OpaqueValueExpr` is directly a `DeclRefExpr` — and only that: when the
source expression is anything else (say a `MemberExpr`), the fallthrough
children loop visits the common `OpaqueValueExpr`, which is not a
`DeclRefExpr` and exposes no children (so that visit yields nothing, as the
`opaqueValue` equation below records), and then the per-element
subexpression; a reference buried inside the common source is never
discovered.  The result is the name the found reference prints. -/
def FindDeclRef (e : Expr) : Option String :=
  match e with
  | .declRef n _ => some n
  | .arrayInitLoop c _ sub =>
      (match c with
       | .declRef n _ => some n
       | _ => none).orElse fun _ => FindDeclRef sub
  | .member b _ _ => FindDeclRef b
  | .arraySubscript l r => (FindDeclRef l).orElse fun _ => FindDeclRef r
  | .lit _ => none
  | .exprWithCleanups s => FindDeclRef s
  | .call f args => (FindDeclRef f).orElse fun _ => FindDeclRefList args
  | .opaqueValue _ => none
  | .arrayInitIndex => none
termination_by sizeOf e

def FindDeclRefList (l : List Expr) : Option String :=
  match l with
  | [] => none
  | e :: es => (FindDeclRef e).orElse fun _ => FindDeclRefList es
termination_by sizeOf l

end

/-- Substring test over character lists (`std::string::find != npos`). -/
def listContainsSub (s pat : List Char) : Bool :=
  match s with
  | [] => pat.isEmpty
  | c :: rest => pat.isPrefixOf (c :: rest) || listContainsSub rest pat

/-- `std::string::find(pat) != npos`. -/
def strContainsSub (s pat : String) : Bool := listContainsSub s.data pat.data

/-- Modelled from the spec: `GetTypeNameAsParameter` (defined outside this
translation unit) renders a declaration of `varName` with the given type; for
the non-array types exercised here this is the type name, a space and the
variable name. -/
def GetTypeNameAsParameterModel (typeName varName : String) : String :=
  typeName ++ " " ++ varName

/-- Modelled from the spec: the `TODO` placeholder emitted for a construct
with no lowering rule is a clearly marked inline token. -/
def todoMarkerText : String := "/* TODO */"

/-- One `BindingDecl` of a decomposition declaration: its printed name, the
printed name of its type, `getBinding()` (absent only in unresolved
templates), and the initializer of `getHoldingVar()` when a holding variable
exists. -/
structure BindingDecl where
  name : String
  typeName : String
  binding : Option Expr
  holdingVarInit : Option Expr

/-- The `holdingVarOrMemberExpr` lambda of the binding loop: the holding
variable's initializer when present, otherwise the binding itself when it is
a `MemberExpr`. -/
def holdingVarOrMemberExprOf (b : BindingDecl) (binding : Expr) : Option Expr :=
  match b.holdingVarInit with
  | some init => some init
  | none =>
      match binding with
      | .member base arrow mtext => some (Expr.member base arrow mtext)
      | _ => none

/-- The `refOrRefRef` computation of the binding loop: `&` when the binding is
an array subscript on a reference-typed decomposition, or when the resolved
initializer exists and is not an `ExprWithCleanups` temporary. -/
def refOrRefRefOf (isRefToObject : Bool) (b : BindingDecl) (binding : Expr) : String :=
  let isArrayBinding := (binding matches Expr.arraySubscript _ _) && isRefToObject
  let isNotTemporary :=
    match holdingVarOrMemberExprOf b binding with
    | some h => !(h matches Expr.exprWithCleanups _)
    | none => false
  if isArrayBinding || isNotTemporary then "&" else ""

/-- The emitted line for one binding with a present `getBinding()`: type name,
reference qualifier, binding name, and the right-hand side rendered through
the `StructuredBindingsCodeGenerator` (tuple case), by direct
temporary-plus-subscript text (array case), or as the TODO placeholder. -/
def bindingLineOf (tmpVarName : String) (isRefToObject : Bool) (b : BindingDecl)
    (binding : Expr) : String :=
  b.typeName ++ refOrRefRefOf isRefToObject b binding ++ " " ++ b.name ++ " = " ++
    (match holdingVarOrMemberExprOf b binding with
     | some h => render (RenderMode.structuredBindings tmpVarName) h
     | none =>
        match binding with
        | .arraySubscript l r => tmpVarName ++ render RenderMode.normal (Expr.arraySubscript l r)
        | _ => todoMarkerText) ++ ";"

/-- The loop body over one `BindingDecl`: nothing is emitted when
`getBinding()` is null. -/
def bindingEmit (tmpVarName : String) (isRefToObject : Bool) (b : BindingDecl) :
    Option String :=
  match b.binding with
  | none => none
  | some binding => some (bindingLineOf tmpVarName isRefToObject b binding)

/-- A `DecompositionDecl`: its initializer, the printed name of its declared
type, whether the desugared declared type is an lvalue reference
(`IsReference`), the source line of its start location, and its bindings. -/
structure DecompositionDecl where
  init : Expr
  typeName : String
  isRefType : Bool
  line : Nat
  bindings : List BindingDecl

/-- The `baseVarName` computation: the name found by `FindDeclRef`, collapsed
to `operator` when it contains that substring; with no reference found, a
diagnostic is reported and the empty string is the fallback. -/
def baseVarNameOf (d : DecompositionDecl) : String :=
  match FindDeclRef d.init with
  | some n => if strContainsSub n "operator" then "operator" else n
  | none => ""

/-- The synthesized temporary's name: built from base name and source
location when a reference was found, from the base name alone otherwise. -/
def tmpVarNameOf (d : DecompositionDecl) : String :=
  match FindDeclRef d.init with
  | some _ => BuildInternalVarNameLoc (baseVarNameOf d) d.line
  | none => BuildInternalVarName (baseVarNameOf d)

/-- `CodeGenerator::InsertArg(const DecompositionDecl*)`: the synthesized
temporary's declaration line followed by one line per binding with a present
`getBinding()`, plus the diagnostics reported (the `Error` call when
`FindDeclRef` finds nothing). -/
def InsertArgDecompositionDecl (d : DecompositionDecl) : List String × List String :=
  let diags : List String :=
    match FindDeclRef d.init with
    | some _ => []
    | none => ["unknown decl"]
  let tmpVarName := tmpVarNameOf d
  let tmpLine := GetTypeNameAsParameterModel d.typeName tmpVarName ++ " = " ++
    render RenderMode.normal d.init ++ ";"
  (tmpLine :: d.bindings.filterMap (bindingEmit tmpVarName d.isRefType), diags)

mutual

/-- Whether the `StructuredBindingsCodeGenerator` substitutes the temporary
somewhere inside this expression: it contains — outside of any
`ArrayInitLoopExpr` — a `DeclRefExpr` whose printed name is empty or ends in
`::`. -/
def containsSubstitutedRef : Expr → Bool
  | .declRef n _ => n = "" || n.endsWith "::"
  | .member b _ _ => containsSubstitutedRef b
  | .arraySubscript l r => containsSubstitutedRef l || containsSubstitutedRef r
  | .lit _ => false
  | .exprWithCleanups s => containsSubstitutedRef s
  | .call f args => containsSubstitutedRef f || containsSubstitutedRefList args
  | .opaqueValue s => containsSubstitutedRef s
  | .arrayInitLoop _ _ _ => false
  | .arrayInitIndex => false

/-- List version of `containsSubstitutedRef`. -/
def containsSubstitutedRefList : List Expr → Bool
  | [] => false
  | e :: es => containsSubstitutedRef e || containsSubstitutedRefList es

end

/-- A binding's lowered right-hand side textually references the decomposed
object (and hence, after substitution, the synthesized temporary): in the
tuple/member case the resolved initializer contains a name reference printed
as empty or trailing `::` (the implicit decomposition variable), in the
array case the subscript text is prefixed by the temporary directly. -/
def bindingReferencesSource (b : BindingDecl) (binding : Expr) : Bool :=
  match holdingVarOrMemberExprOf b binding with
  | some h => containsSubstitutedRef h
  | none => binding matches Expr.arraySubscript _ _

/-- `s` contains `t` as a substring, constructively. -/
def MentionsStr (t s : String) : Prop := ∃ pre post, s = pre ++ t ++ post

/-! ## Node dispatchers (`CodeGenerator::InsertArg(const Stmt*)` and
`InsertArg(const Decl*)`)

Modelled from the spec where `CodeGeneratorTypes.h` is external: the
dispatcher expands to a sequence of `isa<type>` tests over the declared
variant list, the first match invoking exactly that variant's routine, with
the `TODO` placeholder for unlisted variants.  `llvm::isa` requires a
non-null pointer (it asserts otherwise), so running the test chain on a null
node is a failure; only the statement dispatcher guards against null
(`if(!stmt) return;`), the declaration dispatcher has no such guard. -/

/-- Outcome of one dispatch: the early-return no-op, the `idx`-th supported
variant's routine, the TODO placeholder, or the assertion failure of
`isa<>` applied to a null node. -/
inductive DispatchOutcome where
  | noop
  | routine (idx : Nat)
  | todoPlaceholder
  | crash
  deriving DecidableEq, Repr

/-- The macro-expanded chain of `isa` tests: node kinds are numbered, the
supported list is tried in order. -/
def dispatchChain (supported : List Nat) (kind : Nat) (idx : Nat) : DispatchOutcome :=
  match supported with
  | [] => DispatchOutcome.todoPlaceholder
  | k :: rest => if kind = k then DispatchOutcome.routine idx
      else dispatchChain rest kind (idx + 1)

/-- `CodeGenerator::InsertArg(const Stmt*)`: explicit null check, then the
test chain. -/
def InsertArgStmtDispatch (supported : List Nat) : Option Nat → DispatchOutcome
  | none => DispatchOutcome.noop
  | some kind => dispatchChain supported kind 0

/-- `CodeGenerator::InsertArg(const Decl*)`: no null check — the first
`isa<type>(stmt)` test runs immediately and fails the non-null assertion on
a null node. -/
def InsertArgDeclDispatch (supported : List Nat) : Option Nat → DispatchOutcome
  | none => DispatchOutcome.crash
  | some kind => dispatchChain supported kind 0

/-! ## Synthesized function-pointer type-alias names
(`CodeGenerator::InsertArg(const VarDecl*)`) -/

/-- A variable declaration of function-pointer type, as far as the alias-name
synthesis reads it: its printed name and the spelling line of its source
range's begin. -/
structure FuncPtrVarDecl where
  name : String
  line : Nat
  deriving DecidableEq, Repr

/-- The synthesized type-alias name
`StrCat("FuncPtr_", std::to_string(lineNo), " ")`: a function of the line
number alone. -/
def funcPtrTypeAliasName (v : FuncPtrVarDecl) : String :=
  "FuncPtr_" ++ Nat.repr v.line ++ " "

/-! # Theorems -/

theorem GetBuffer_skip (l : LambdaHelper) (rest : List LambdaHelper) (ambient : Nat)
    (h : anchorsPlacement l.callerType = false) :
    GetBuffer (l :: rest) ambient = GetBuffer rest ambient := by
  simp [GetBuffer, h]

theorem GetBuffer_of_no_anchor (stack : List LambdaHelper) (ambient : Nat)
    (h : ∀ l ∈ stack, anchorsPlacement l.callerType = false) :
    GetBuffer stack ambient = ambient := by
  induction stack with
  | nil => rfl
  | cons l rest ih =>
      rw [GetBuffer_skip l rest ambient (h l (List.mem_cons_self l rest))]
      exact ih fun x hx => h x (List.mem_cons_of_mem l hx)

/-- claim C1: the destination buffer chosen for a synthesized lambda class is
found by scanning the existing lambda stack in order for the nearest entry
whose trigger kind is placement-anchoring (CallExpr, VarDecl, ReturnStmt,
OperatorCallExpr, MemberCallExpr, BinaryOperator); its buffer is reused when
it exists, and when no entry of the stack anchors placement the ambient
output buffer is used directly. -/
theorem lambda_buffer_selection (pre post : List LambdaHelper) (l : LambdaHelper)
    (ambient : Nat)
    (hpre : ∀ x ∈ pre, anchorsPlacement x.callerType = false)
    (hl : anchorsPlacement l.callerType = true) :
    GetBuffer (pre ++ l :: post) ambient = l.bufferId ∧
      (∀ stack : List LambdaHelper,
        (∀ x ∈ stack, anchorsPlacement x.callerType = false) →
          GetBuffer stack ambient = ambient) := by
  constructor
  · induction pre with
    | nil => simp [GetBuffer, hl]
    | cons p rest ih =>
        rw [List.cons_append,
          GetBuffer_skip p (rest ++ l :: post) ambient (hpre p (List.mem_cons_self p rest))]
        exact ih fun x hx => hpre x (List.mem_cons_of_mem p hx)
  · exact fun stack h => GetBuffer_of_no_anchor stack ambient h

theorem lambda_buffer_selection_witness :
    GetBuffer
        [⟨LambdaCallerType.LambdaExpr, 7⟩, ⟨LambdaCallerType.ReturnStmt, 3⟩,
          ⟨LambdaCallerType.CallExpr, 9⟩] 0 = 3 ∧
      (∀ stack : List LambdaHelper,
        (∀ x ∈ stack, anchorsPlacement x.callerType = false) →
          GetBuffer stack 0 = 0) :=
  lambda_buffer_selection [⟨LambdaCallerType.LambdaExpr, 7⟩]
    [⟨LambdaCallerType.CallExpr, 9⟩] ⟨LambdaCallerType.ReturnStmt, 3⟩ 0
    (by decide) (by decide)

/-- claim C3: a range-based for statement lowers to an outer scope holding the
range/begin/end declarations, then a three-clause `for` with an empty init
clause whose condition and increment are the statement's resolved ones, whose
body opens a nested scope declaring the loop variable before the original
body, with a trailing `;` exactly when the body is neither a compound
statement nor a null statement. -/
theorem range_for_emission (s : CXXForRangeStmt) :
    ∃ bodyEvents : List OutEvent,
      InsertArgCXXForRangeStmt s =
        [OutEvent.openScope, OutEvent.append s.rangeDeclText,
          OutEvent.append s.beginDeclText, OutEvent.append s.endDeclText,
          OutEvent.newLine, OutEvent.append "for( ; ", OutEvent.append s.condText,
          OutEvent.append "; ", OutEvent.append s.incText,
          OutEvent.appendNewLine " )", OutEvent.openScope,
          OutEvent.append s.loopVarText] ++ bodyEvents ++
        (if ¬isBodyBraced s.body = true ∧ ¬isNullStmt s.body = true then
          [OutEvent.appendNewLine ";"] else []) ++
        [OutEvent.closeScopeNoNewLineBefore, OutEvent.closeScope] := by
  cases s with
  | mk r b e c i lv body =>
      cases body with
      | compound items =>
          exact ⟨HandleCompoundStmtEvents items, by
            simp [InsertArgCXXForRangeStmt, isBodyBraced, isNullStmt]⟩
      | null =>
          exact ⟨[OutEvent.appendNewLine ";"], by
            simp [InsertArgCXXForRangeStmt, InsertArgBodyStmt, isBodyBraced, isNullStmt]⟩
      | plain st =>
          exact ⟨[OutEvent.append st.text], by
            simp [InsertArgCXXForRangeStmt, InsertArgBodyStmt, isBodyBraced, isNullStmt]⟩

theorem staticInitCalls_eq (n : Nat) :
    staticInitCalls n = (decide (0 < n), min n 1) := by
  induction n with
  | zero => rfl
  | succ m ih =>
      cases m with
      | zero => rfl
      | succ k =>
          simp [staticInitCalls, staticInitCall] at ih ⊢
          simp [ih]

/-- claim C8: a function-local static of non-trivial class type lowers to a
static boolean guard, a static byte buffer sized with `sizeof` of the type,
an `if` on the negated guard, and inside that single scope exactly one
placement-construction followed by the guard assignment; the modelled runtime
of that pattern constructs the object at most once over any number of calls,
and exactly once as soon as one call has happened. -/
theorem local_static_guarded_once (varName typeName : String) :
    (HandleLocalStaticNonTrivialClass varName typeName =
      [OutEvent.appendNewLine ("static bool " ++ (BuildInternalVarName varName ++ "B") ++ ";"),
       OutEvent.appendNewLine
         ("static char " ++ BuildInternalVarName varName ++ "[sizeof(" ++ typeName ++ ")];"),
       OutEvent.newLine,
       OutEvent.appendNewLine ("if( ! " ++ (BuildInternalVarName varName ++ "B") ++ " )"),
       OutEvent.openScope,
       OutEvent.appendNewLine ("new (&" ++ BuildInternalVarName varName ++ ") " ++ typeName ++ ";"),
       OutEvent.appendNewLine ((BuildInternalVarName varName ++ "B") ++ " = true;"),
       OutEvent.closeScopeNoNewLineBefore,
       OutEvent.newLine]) ∧
    ((HandleLocalStaticNonTrivialClass varName typeName).countP
        (fun e => e matches OutEvent.openScope) = 1) ∧
    (∀ n : Nat, (staticInitCalls n).2 ≤ 1 ∧ (0 < n → (staticInitCalls n).2 = 1)) := by
  refine ⟨rfl, ?_, ?_⟩
  · simp [HandleLocalStaticNonTrivialClass, List.countP_cons]
  · intro n
    rw [staticInitCalls_eq n]
    constructor
    · exact Nat.min_le_right n 1
    · intro hn
      simpa [Nat.min_eq_right] using Nat.min_eq_right hn

theorem local_static_guarded_once_witness :
    (staticInitCalls 5).2 ≤ 1 ∧ (0 < 5 → (staticInitCalls 5).2 = 1) :=
  (local_static_guarded_once "obj" "T").2.2 5

/-- claim C2: a lambda with zero captures is lowered to a class without any
constructor (the `ctorRequired` flag stays false, so no constructor lines are
emitted), and the construction text for the use site is the empty initializer
list — appended inline after the class name, or deferred through the
enclosing lambda helper when the trigger is a variable declaration or call
expression. -/
theorem zero_capture_lambda (lambdaTypeName : String) (methodEvents : List OutEvent)
    (callerType : LambdaCallerType) :
    (HandleLambdaExprModel lambdaTypeName methodEvents callerType []).initsText =
        "\x7b\x7d" ∧
      (HandleLambdaExprModel lambdaTypeName methodEvents callerType []).classEvents =
        [OutEvent.newLine, OutEvent.appendNewLine ("class " ++ lambdaTypeName),
            OutEvent.openScope] ++
          methodEvents ++ [OutEvent.closeScope] ++
          (if ¬callerType = LambdaCallerType.VarDecl ∧
              ¬callerType = LambdaCallerType.CallExpr then
            [OutEvent.append (" " ++ lambdaTypeName ++ "\x7b\x7d"),
              OutEvent.appendNewLine ";", OutEvent.newLine]
          else [OutEvent.appendNewLine ";", OutEvent.newLine]) ∧
      (HandleLambdaExprModel lambdaTypeName methodEvents callerType []).deferredInits =
        (if ¬callerType = LambdaCallerType.VarDecl ∧
            ¬callerType = LambdaCallerType.CallExpr then none
         else some "\x7b\x7d") := by
  cases callerType <;> simp [HandleLambdaExprModel, lambdaCtorInit]

theorem insertBeforeList_split (base rest ins : List Char)
    (h : ∀ ch ∈ base, ch ≠ '[') :
    insertBeforeList (base ++ '[' :: rest) ['['] ins = base ++ (ins ++ '[' :: rest) := by
  induction base with
  | nil => simp [insertBeforeList, List.isPrefixOf]
  | cons c cs ih =>
      have hc : c ≠ '[' := h c (List.mem_cons_self c cs)
      have hbeq : ('[' == c) = false := by
        rw [beq_eq_false_iff_ne]
        exact fun hn => hc hn.symm
      simp [insertBeforeList, List.isPrefixOf, hbeq,
        ih fun x hx => h x (List.mem_cons_of_mem c hx)]

/-- claim C5: a by-reference capture of a variable whose type is neither a
reference nor an array appends exactly one `&` after the type name in both
the field text and the constructor parameter text; a by-reference capture of
an array-typed variable appends no trailing `&` and instead uses the
parenthesized declarator form `(&name)[...]` obtained by inserting `(&name)`
before the first `[` of the type name. -/
theorem byref_capture_type_qualifier (st : LambdaCtorState) (c : LambdaCapture)
    (base rest : List Char)
    (hvar : c.capturesVariable = true) (hthis : c.capturesThis = false)
    (hkind : c.kind = LambdaCaptureKind.ByRef) :
    ((c.varType.isReferenceType = false ∧ c.varType.isArrayType = false) →
      ∃ lsep csep,
        (processLambdaCapture st c).classBody =
          st.classBody ++ lsep ++
            [OutEvent.append c.varType.name, OutEvent.append "&",
              OutEvent.appendNewLine (" " ++ c.varName ++ ";")] ∧
        (processLambdaCapture st c).ctor =
          st.ctor ++ csep ++ c.varType.name ++ "&" ++ " _" ++ c.varName) ∧
    ((c.varType.isArrayType = true ∧ c.varType.name.data = base ++ '[' :: rest ∧
        (∀ ch ∈ base, ch ≠ '[')) →
      ∃ lsep csep,
        (processLambdaCapture st c).classBody =
          st.classBody ++ lsep ++
            [OutEvent.append
                (String.mk (base ++ (("(&" ++ c.varName ++ ")").data ++ '[' :: rest))),
              OutEvent.appendNewLine ";"] ∧
        (processLambdaCapture st c).ctor =
          st.ctor ++ csep ++
            String.mk (base ++ (("(&_" ++ c.varName ++ ")").data ++ '[' :: rest))) := by
  constructor
  · rintro ⟨href, harr⟩
    refine ⟨if st.first then [OutEvent.newLine] else [], if st.first then "" else ", ", ?_⟩
    by_cases hf : st.first = true <;>
      simp [processLambdaCapture, hvar, hthis, hkind, href, harr,
        GetCaptureTypeNameAsParameter, hf, String.append_assoc]
  · rintro ⟨harr, hname, hbase⟩
    refine ⟨if st.first then [OutEvent.newLine] else [], if st.first then "" else ", ", ?_⟩
    have harr2 : GetCaptureTypeNameAsParameter c.varType c.varName =
        String.mk (base ++ (("(&" ++ c.varName ++ ")").data ++ '[' :: rest)) := by
      simp only [GetCaptureTypeNameAsParameter, harr, if_pos, InsertBefore]
      rw [hname]
      exact congrArg String.mk (insertBeforeList_split base rest _ hbase)
    have h2 : ("(&" ++ ("_" ++ c.varName) ++ ")" : String) =
        ("(&_" ++ c.varName ++ ")" : String) := by
      rw [← String.append_assoc]
      rfl
    have harr3 : GetCaptureTypeNameAsParameter c.varType ("_" ++ c.varName) =
        String.mk (base ++ (("(&_" ++ c.varName ++ ")").data ++ '[' :: rest)) := by
      simp only [GetCaptureTypeNameAsParameter, harr, if_pos, InsertBefore]
      rw [hname, h2]
      exact congrArg String.mk (insertBeforeList_split base rest _ hbase)
    by_cases hf : st.first = true <;>
      simp [processLambdaCapture, hvar, hthis, hkind, harr, harr2, harr3, hf,
        String.append_assoc]

theorem byref_capture_type_qualifier_witness :
    ∃ lsep csep,
      (processLambdaCapture (lambdaCtorInit "L")
          (LambdaCapture.mk LambdaCaptureKind.ByRef true false false "x"
            (CppType.mk "int" false false) (CppType.mk "" false false) false
            "")).classBody =
        (lambdaCtorInit "L").classBody ++ lsep ++
          [OutEvent.append "int", OutEvent.append "&",
            OutEvent.appendNewLine " x;"] ∧
      (processLambdaCapture (lambdaCtorInit "L")
          (LambdaCapture.mk LambdaCaptureKind.ByRef true false false "x"
            (CppType.mk "int" false false) (CppType.mk "" false false) false
            "")).ctor =
        (lambdaCtorInit "L").ctor ++ csep ++ "int" ++ "&" ++ " _" ++ "x" := by
  have h := (byref_capture_type_qualifier (lambdaCtorInit "L")
    (LambdaCapture.mk LambdaCaptureKind.ByRef true false false "x"
      (CppType.mk "int" false false) (CppType.mk "" false false) false "")
    [] [] rfl rfl rfl).1 ⟨rfl, rfl⟩
  obtain ⟨lsep, csep, h1, h2⟩ := h
  exact ⟨lsep, csep, h1, h2⟩

/-- claim C10: a character literal whose value is none of the ten specially
escaped characters and whose (possibly masked) value is not both below 256
and printable produces only the encoding prefix: the quoted character text is
silently omitted. -/
theorem char_literal_silent_omission (kind : CharacterLiteralKind) (value : Nat)
    (hv : value < 4294967296)
    (hesc : value ∉ ([92, 0, 39, 7, 8, 12, 10, 13, 9, 11] : List Nat))
    (hbad : ¬(maskedCharValue kind value < 256 ∧
      isPrintable (maskedCharValue kind value) = true)) :
    HandleCharacterLiteral kind value = encodingMark kind := by
  simp only [List.mem_cons, List.not_mem_nil, or_false, not_or] at hesc
  obtain ⟨h92, h0, h39, h7, h8, h12, h10, h13, h9, h11⟩ := hesc
  unfold HandleCharacterLiteral
  simp [h92, h0, h39, h7, h8, h12, h10, h13, h9, h11, hbad]

theorem char_literal_silent_omission_witness :
    HandleCharacterLiteral CharacterLiteralKind.UTF32 128512 =
      encodingMark CharacterLiteralKind.UTF32 :=
  char_literal_silent_omission CharacterLiteralKind.UTF32 128512 (by decide)
    (by decide) (by decide)

theorem str_append_empty (s : String) : s ++ "" = s := by
  apply String.ext
  rw [String.data_append]
  have h : ("" : String).data = [] := rfl
  rw [h, List.append_nil]

theorem str_empty_append (s : String) : "" ++ s = s := by
  apply String.ext
  rw [String.data_append]
  rfl

theorem mentionsStr_self (t : String) : MentionsStr t t :=
  ⟨"", "", by rw [str_empty_append, str_append_empty]⟩

theorem mentionsStr_append_left (t r s : String) (h : MentionsStr t s) :
    MentionsStr t (r ++ s) := by
  obtain ⟨p, q, hs⟩ := h
  exact ⟨r ++ p, q, by rw [hs]; simp [String.append_assoc]⟩

theorem mentionsStr_append_right (t s r : String) (h : MentionsStr t s) :
    MentionsStr t (s ++ r) := by
  obtain ⟨p, q, hs⟩ := h
  exact ⟨p, q ++ r, by rw [hs]; simp [String.append_assoc]⟩

theorem joinCommaSep_mentions (t : String) (l : List String) (s : String)
    (hs : s ∈ l) (hm : MentionsStr t s) : MentionsStr t (joinCommaSep l) := by
  induction l with
  | nil => cases hs
  | cons x rest ih =>
      cases rest with
      | nil =>
          have : s = x := by simpa using hs
          subst this
          simpa [joinCommaSep] using hm
      | cons y ys =>
          rcases List.mem_cons.mp hs with h | h
          · subst h
            exact mentionsStr_append_right t _ _ (mentionsStr_append_right t _ _ hm)
          · exact mentionsStr_append_left t _ _ (ih h)

mutual

theorem render_sb_mentions (tmp : String) (e : Expr)
    (h : containsSubstitutedRef e = true) :
    MentionsStr tmp (render (RenderMode.structuredBindings tmp) e) := by
  match e with
  | .declRef n targs =>
      simp only [containsSubstitutedRef] at h
      simp only [render, h, if_true]
      exact mentionsStr_append_left tmp n tmp (mentionsStr_self tmp)
  | .member b arrow mtext =>
      simp only [containsSubstitutedRef] at h
      have := render_sb_mentions tmp b h
      simp only [render]
      exact mentionsStr_append_right _ _ _ (mentionsStr_append_right _ _ _ this)
  | .arraySubscript l r =>
      simp only [containsSubstitutedRef, Bool.or_eq_true] at h
      simp only [render]
      rcases h with h | h
      · exact mentionsStr_append_right _ _ _ (mentionsStr_append_right _ _ _
          (mentionsStr_append_right _ _ _ (render_sb_mentions tmp l h)))
      · exact mentionsStr_append_right _ _ _ (mentionsStr_append_left _ _ _
          (render_sb_mentions tmp r h))
  | .lit t => simp [containsSubstitutedRef] at h
  | .exprWithCleanups s =>
      simp only [containsSubstitutedRef] at h
      simpa [render] using render_sb_mentions tmp s h
  | .opaqueValue s =>
      simp only [containsSubstitutedRef] at h
      simpa [render] using render_sb_mentions tmp s h
  | .call f args =>
      simp only [containsSubstitutedRef, Bool.or_eq_true] at h
      simp only [render]
      rcases h with h | h
      · exact mentionsStr_append_right _ _ _ (mentionsStr_append_right _ _ _
          (mentionsStr_append_right _ _ _ (render_sb_mentions tmp f h)))
      · obtain ⟨s, hs, hm⟩ := render_sb_mentions_list tmp args h
        exact mentionsStr_append_right _ _ _ (mentionsStr_append_left _ _ _
          (joinCommaSep_mentions tmp _ s hs hm))
  | .arrayInitLoop c size sub => simp [containsSubstitutedRef] at h
  | .arrayInitIndex => simp [containsSubstitutedRef] at h
termination_by sizeOf e

theorem render_sb_mentions_list (tmp : String) (l : List Expr)
    (h : containsSubstitutedRefList l = true) :
    ∃ s ∈ renderList (RenderMode.structuredBindings tmp) l, MentionsStr tmp s := by
  match l with
  | [] => simp [containsSubstitutedRefList] at h
  | e :: es =>
      simp only [containsSubstitutedRefList, Bool.or_eq_true] at h
      rcases h with h | h
      · exact ⟨render (RenderMode.structuredBindings tmp) e, by simp [renderList],
          render_sb_mentions tmp e h⟩
      · obtain ⟨s, hs, hm⟩ := render_sb_mentions_list tmp es h
        exact ⟨s, by simp only [renderList, List.mem_cons]; exact Or.inr hs, hm⟩
termination_by sizeOf l

end

theorem bindingLineOf_mentions (tmp : String) (isRef : Bool) (b : BindingDecl)
    (be : Expr) (h : bindingReferencesSource b be = true) :
    MentionsStr tmp (bindingLineOf tmp isRef b be) := by
  unfold bindingLineOf
  unfold bindingReferencesSource at h
  cases hh : holdingVarOrMemberExprOf b be with
  | some hv =>
      rw [hh] at h
      simp only [hh]
      exact mentionsStr_append_right _ _ _ (mentionsStr_append_left _ _ _
        (render_sb_mentions tmp hv h))
  | none =>
      rw [hh] at h
      simp only [hh]
      cases be with
      | arraySubscript l r =>
          exact mentionsStr_append_right _ _ _ (mentionsStr_append_left _ _ _
            (mentionsStr_append_right _ _ _ (mentionsStr_self tmp)))
      | declRef n targs => simp at h
      | member x y z => simp at h
      | lit t => simp at h
      | exprWithCleanups s => simp at h
      | call f args => simp at h
      | opaqueValue s => simp at h
      | arrayInitLoop c n s => simp at h
      | arrayInitIndex => simp at h

theorem bindings_forall2 (tmp : String) (isRef : Bool) (bs : List BindingDecl)
    (hb : ∀ b ∈ bs, ∃ be, b.binding = some be ∧ bindingReferencesSource b be = true) :
    List.Forall₂
      (fun b line => bindingEmit tmp isRef b = some line ∧ MentionsStr tmp line)
      bs (bs.filterMap (bindingEmit tmp isRef)) := by
  induction bs with
  | nil => simp
  | cons b rest ih =>
      obtain ⟨be, hbe, href⟩ := hb b (List.mem_cons_self b rest)
      have hline : bindingEmit tmp isRef b = some (bindingLineOf tmp isRef b be) := by
        simp [bindingEmit, hbe]
      rw [List.filterMap_cons, hline]
      exact List.Forall₂.cons ⟨hline, bindingLineOf_mentions tmp isRef b be href⟩
        (ih fun x hx => hb x (List.mem_cons_of_mem b hx))

/-- claim C4: a decomposition declaration emits exactly one synthesized
temporary, initialized with the original initializer expression, followed by
one binding declaration per binding in source order, each referencing that
temporary (hypotheses: the resolved AST supplies every binding, and each
binding's resolved initializer names the decomposed object, as the front end
guarantees). -/
theorem decomposition_lowering (d : DecompositionDecl)
    (hbind : ∀ b ∈ d.bindings, ∃ be, b.binding = some be ∧
      bindingReferencesSource b be = true) :
    ∃ bindingLines : List String,
      (InsertArgDecompositionDecl d).1 =
        (GetTypeNameAsParameterModel d.typeName (tmpVarNameOf d) ++ " = " ++
          render RenderMode.normal d.init ++ ";") :: bindingLines ∧
      bindingLines.length = d.bindings.length ∧
      List.Forall₂
        (fun b line =>
          bindingEmit (tmpVarNameOf d) d.isRefType b = some line ∧
          MentionsStr (tmpVarNameOf d) line)
        d.bindings bindingLines := by
  refine ⟨d.bindings.filterMap (bindingEmit (tmpVarNameOf d) d.isRefType), rfl, ?_, ?_⟩
  · exact (List.Forall₂.length_eq (bindings_forall2 _ _ _ hbind)).symm
  · exact bindings_forall2 _ _ _ hbind

theorem decomposition_lowering_witness :
    ∃ bindingLines : List String,
      (InsertArgDecompositionDecl
          (DecompositionDecl.mk (Expr.declRef "p" "") "std::pair<int, int>" false 3
            [BindingDecl.mk "a" "int" (some (Expr.lit "a"))
                (some (Expr.call (Expr.lit "std::get<0>")
                  [Expr.declRef "" ""])),
              BindingDecl.mk "b" "int" (some (Expr.lit "b"))
                (some (Expr.call (Expr.lit "std::get<1>")
                  [Expr.declRef "" ""]))])).1 =
        (GetTypeNameAsParameterModel "std::pair<int, int>"
            (tmpVarNameOf
              (DecompositionDecl.mk (Expr.declRef "p" "") "std::pair<int, int>" false 3
                [BindingDecl.mk "a" "int" (some (Expr.lit "a"))
                    (some (Expr.call (Expr.lit "std::get<0>")
                      [Expr.declRef "" ""])),
                  BindingDecl.mk "b" "int" (some (Expr.lit "b"))
                    (some (Expr.call (Expr.lit "std::get<1>")
                      [Expr.declRef "" ""]))])) ++ " = " ++
          render RenderMode.normal (Expr.declRef "p" "") ++ ";") :: bindingLines ∧
      bindingLines.length = 2 ∧
      List.Forall₂
        (fun b line =>
          bindingEmit
              (tmpVarNameOf
                (DecompositionDecl.mk (Expr.declRef "p" "") "std::pair<int, int>" false 3
                  [BindingDecl.mk "a" "int" (some (Expr.lit "a"))
                      (some (Expr.call (Expr.lit "std::get<0>")
                        [Expr.declRef "" ""])),
                    BindingDecl.mk "b" "int" (some (Expr.lit "b"))
                      (some (Expr.call (Expr.lit "std::get<1>")
                        [Expr.declRef "" ""]))])) false b = some line ∧
          MentionsStr
            (tmpVarNameOf
              (DecompositionDecl.mk (Expr.declRef "p" "") "std::pair<int, int>" false 3
                [BindingDecl.mk "a" "int" (some (Expr.lit "a"))
                    (some (Expr.call (Expr.lit "std::get<0>")
                      [Expr.declRef "" ""])),
                  BindingDecl.mk "b" "int" (some (Expr.lit "b"))
                    (some (Expr.call (Expr.lit "std::get<1>")
                      [Expr.declRef "" ""]))])) line)
        [BindingDecl.mk "a" "int" (some (Expr.lit "a"))
            (some (Expr.call (Expr.lit "std::get<0>")
              [Expr.declRef "" ""])),
          BindingDecl.mk "b" "int" (some (Expr.lit "b"))
            (some (Expr.call (Expr.lit "std::get<1>")
              [Expr.declRef "" ""]))] bindingLines := by
  have h := decomposition_lowering
    (DecompositionDecl.mk (Expr.declRef "p" "") "std::pair<int, int>" false 3
      [BindingDecl.mk "a" "int" (some (Expr.lit "a"))
          (some (Expr.call (Expr.lit "std::get<0>") [Expr.declRef "" ""])),
        BindingDecl.mk "b" "int" (some (Expr.lit "b"))
          (some (Expr.call (Expr.lit "std::get<1>") [Expr.declRef "" ""]))])
    (by
      intro b hb
      simp only [List.mem_cons, List.not_mem_nil, or_false] at hb
      rcases hb with h | h <;> subst h <;>
        exact ⟨_, rfl, by
          simp [bindingReferencesSource, holdingVarOrMemberExprOf,
            containsSubstitutedRef, containsSubstitutedRefList]⟩)
  simpa using h

/-- claim C7: when `FindDeclRef` finds no name reference in a decomposition
initializer, the diagnostic channel receives the error, the empty string is
the fallback base name (so the temporary is named from the empty base), and
the lowering still emits the full declaration structure — the model is a
total function, mirroring that `Error` reports and returns without aborting
the traversal. -/
theorem decomposition_missing_declref (d : DecompositionDecl)
    (hnone : FindDeclRef d.init = none) :
    (InsertArgDecompositionDecl d).2 = ["unknown decl"] ∧
    baseVarNameOf d = "" ∧
    (InsertArgDecompositionDecl d).1 =
      (GetTypeNameAsParameterModel d.typeName (BuildInternalVarName "") ++ " = " ++
        render RenderMode.normal d.init ++ ";") ::
        d.bindings.filterMap (bindingEmit (BuildInternalVarName "") d.isRefType) ∧
    (InsertArgDecompositionDecl d).1 ≠ [] := by
  refine ⟨?_, ?_, ?_, ?_⟩ <;>
    simp [InsertArgDecompositionDecl, baseVarNameOf, tmpVarNameOf, hnone]

theorem decomposition_missing_declref_witness :
    (InsertArgDecompositionDecl
        (DecompositionDecl.mk
          (Expr.arrayInitLoop (Expr.member (Expr.declRef "s" "") false "arr") 2
            (Expr.arraySubscript
              (Expr.opaqueValue (Expr.member (Expr.declRef "s" "") false "arr"))
              Expr.arrayInitIndex))
          "int [2]" false 9
          [BindingDecl.mk "x" "int"
              (some (Expr.arraySubscript (Expr.declRef "" "") (Expr.lit "0"))) none,
            BindingDecl.mk "y" "int"
              (some (Expr.arraySubscript (Expr.declRef "" "") (Expr.lit "1")))
              none])).2 = ["unknown decl"] ∧
    baseVarNameOf
        (DecompositionDecl.mk
          (Expr.arrayInitLoop (Expr.member (Expr.declRef "s" "") false "arr") 2
            (Expr.arraySubscript
              (Expr.opaqueValue (Expr.member (Expr.declRef "s" "") false "arr"))
              Expr.arrayInitIndex))
          "int [2]" false 9
          [BindingDecl.mk "x" "int"
              (some (Expr.arraySubscript (Expr.declRef "" "") (Expr.lit "0"))) none,
            BindingDecl.mk "y" "int"
              (some (Expr.arraySubscript (Expr.declRef "" "") (Expr.lit "1")))
              none]) = "" ∧
    (InsertArgDecompositionDecl
        (DecompositionDecl.mk
          (Expr.arrayInitLoop (Expr.member (Expr.declRef "s" "") false "arr") 2
            (Expr.arraySubscript
              (Expr.opaqueValue (Expr.member (Expr.declRef "s" "") false "arr"))
              Expr.arrayInitIndex))
          "int [2]" false 9
          [BindingDecl.mk "x" "int"
              (some (Expr.arraySubscript (Expr.declRef "" "") (Expr.lit "0"))) none,
            BindingDecl.mk "y" "int"
              (some (Expr.arraySubscript (Expr.declRef "" "") (Expr.lit "1")))
              none])).1 =
      (GetTypeNameAsParameterModel "int [2]" (BuildInternalVarName "") ++ " = " ++
        render RenderMode.normal
          (Expr.arrayInitLoop (Expr.member (Expr.declRef "s" "") false "arr") 2
            (Expr.arraySubscript
              (Expr.opaqueValue (Expr.member (Expr.declRef "s" "") false "arr"))
              Expr.arrayInitIndex)) ++ ";") ::
        List.filterMap (bindingEmit (BuildInternalVarName "") false)
          [BindingDecl.mk "x" "int"
              (some (Expr.arraySubscript (Expr.declRef "" "") (Expr.lit "0"))) none,
            BindingDecl.mk "y" "int"
              (some (Expr.arraySubscript (Expr.declRef "" "") (Expr.lit "1")))
              none] ∧
    (InsertArgDecompositionDecl
        (DecompositionDecl.mk
          (Expr.arrayInitLoop (Expr.member (Expr.declRef "s" "") false "arr") 2
            (Expr.arraySubscript
              (Expr.opaqueValue (Expr.member (Expr.declRef "s" "") false "arr"))
              Expr.arrayInitIndex))
          "int [2]" false 9
          [BindingDecl.mk "x" "int"
              (some (Expr.arraySubscript (Expr.declRef "" "") (Expr.lit "0"))) none,
            BindingDecl.mk "y" "int"
              (some (Expr.arraySubscript (Expr.declRef "" "") (Expr.lit "1")))
              none])).1 ≠ [] :=
  decomposition_missing_declref
    (DecompositionDecl.mk
      (Expr.arrayInitLoop (Expr.member (Expr.declRef "s" "") false "arr") 2
        (Expr.arraySubscript
          (Expr.opaqueValue (Expr.member (Expr.declRef "s" "") false "arr"))
          Expr.arrayInitIndex))
      "int [2]" false 9
      [BindingDecl.mk "x" "int"
          (some (Expr.arraySubscript (Expr.declRef "" "") (Expr.lit "0"))) none,
        BindingDecl.mk "y" "int"
            (some (Expr.arraySubscript (Expr.declRef "" "") (Expr.lit "1"))) none])
    (by simp [FindDeclRef, Option.orElse])

theorem dispatchChain_mem (kind : Nat) (supported : List Nat) (h : kind ∈ supported) :
    ∀ idx : Nat, ∃ i, supported[i]? = some kind ∧
      dispatchChain supported kind idx = DispatchOutcome.routine (idx + i) := by
  induction supported with
  | nil => cases h
  | cons k rest ih =>
      intro idx
      by_cases hk : kind = k
      · exact ⟨0, by simp [hk], by simp [dispatchChain, hk]⟩
      · rcases List.mem_cons.mp h with h0 | h0
        · exact absurd h0 hk
        · obtain ⟨i, hget, hch⟩ := ih h0 (idx + 1)
          refine ⟨i + 1, by simpa using hget, ?_⟩
          rw [dispatchChain, if_neg hk, hch]
          congr 1
          omega

theorem dispatchChain_not_mem (kind : Nat) (supported : List Nat)
    (h : kind ∉ supported) :
    ∀ idx : Nat, dispatchChain supported kind idx = DispatchOutcome.todoPlaceholder := by
  induction supported with
  | nil => intro idx; rfl
  | cons k rest ih =>
      intro idx
      have hk : kind ≠ k := fun he => h (he ▸ List.mem_cons_self k rest)
      rw [dispatchChain, if_neg hk]
      exact ih (fun hm => h (List.mem_cons_of_mem k hm)) (idx + 1)

/-- claim C6 counterexample: the claim asserts that a null node is a no-op for
both dispatchers, but the declaration dispatcher has no null check — its
first `isa<type>` test runs on the null node and fails the assertion, which
is not the claimed silent no-op. -/
theorem decl_dispatch_null_not_noop :
    InsertArgDeclDispatch [0, 1] none ≠ DispatchOutcome.noop ∧
    InsertArgDeclDispatch [0, 1] none = DispatchOutcome.crash ∧
    InsertArgStmtDispatch [0, 1] none = DispatchOutcome.noop := by
  refine ⟨?_, rfl, rfl⟩
  intro h
  cases h

/-- claim C6 amended: the statement dispatcher is a no-op on a null node; the
declaration dispatcher performs no null check, so a null declaration hits the
`isa` assertion instead; on every non-null node both dispatchers invoke
exactly one routine — the one of the first variant in the supported list that
matches the node's kind — and fall back to the TODO placeholder when no
variant matches. -/
theorem dispatch_null_and_single_routine (supported : List Nat) (kind : Nat) :
    InsertArgStmtDispatch supported none = DispatchOutcome.noop ∧
    InsertArgDeclDispatch supported none = DispatchOutcome.crash ∧
    (kind ∈ supported →
      ∃ i, supported[i]? = some kind ∧
        InsertArgStmtDispatch supported (some kind) = DispatchOutcome.routine i ∧
        InsertArgDeclDispatch supported (some kind) = DispatchOutcome.routine i) ∧
    (kind ∉ supported →
      InsertArgStmtDispatch supported (some kind) = DispatchOutcome.todoPlaceholder ∧
      InsertArgDeclDispatch supported (some kind) = DispatchOutcome.todoPlaceholder) := by
  refine ⟨rfl, rfl, ?_, ?_⟩
  · intro h
    obtain ⟨i, hget, hch⟩ := dispatchChain_mem kind supported h 0
    exact ⟨i, hget, by simpa [InsertArgStmtDispatch] using hch,
      by simpa [InsertArgDeclDispatch] using hch⟩
  · intro h
    exact ⟨dispatchChain_not_mem kind supported h 0,
      dispatchChain_not_mem kind supported h 0⟩

theorem dispatch_null_and_single_routine_witness :
    InsertArgStmtDispatch [3, 5] none = DispatchOutcome.noop ∧
    InsertArgDeclDispatch [3, 5] none = DispatchOutcome.crash ∧
    (5 ∈ [3, 5] →
      ∃ i, [3, 5][i]? = some 5 ∧
        InsertArgStmtDispatch [3, 5] (some 5) = DispatchOutcome.routine i ∧
        InsertArgDeclDispatch [3, 5] (some 5) = DispatchOutcome.routine i) ∧
    (5 ∉ [3, 5] →
      InsertArgStmtDispatch [3, 5] (some 5) = DispatchOutcome.todoPlaceholder ∧
      InsertArgDeclDispatch [3, 5] (some 5) = DispatchOutcome.todoPlaceholder) :=
  dispatch_null_and_single_routine [3, 5] 5

/-- claim C9 counterexample: two distinct function-pointer variable
declarations on the same source line receive the same synthesized type-alias
name, so distinct synthesized entities within one translation unit do not
always receive distinct names. -/
theorem funcptr_alias_collision :
    FuncPtrVarDecl.mk "f" 5 ≠ FuncPtrVarDecl.mk "g" 5 ∧
    funcPtrTypeAliasName (FuncPtrVarDecl.mk "f" 5) =
      funcPtrTypeAliasName (FuncPtrVarDecl.mk "g" 5) := by
  constructor
  · intro h
    exact absurd (congrArg FuncPtrVarDecl.name h) (by decide)
  · rfl

/-- claim C9 amended: synthesized identifiers are deterministic — re-running
on identical input reproduces identical names, and in particular the
function-pointer type-alias name is a function of the source line alone — but
distinctness is not guaranteed: entities sharing a line share the alias
name. -/
theorem funcptr_alias_line_determined (v w : FuncPtrVarDecl)
    (h : v.line = w.line) :
    funcPtrTypeAliasName v = funcPtrTypeAliasName w := by
  unfold funcPtrTypeAliasName
  rw [h]

theorem funcptr_alias_line_determined_witness :
    funcPtrTypeAliasName (FuncPtrVarDecl.mk "f" 7) =
      funcPtrTypeAliasName (FuncPtrVarDecl.mk "g" 7) :=
  funcptr_alias_line_determined (FuncPtrVarDecl.mk "f" 7) (FuncPtrVarDecl.mk "g" 7) rfl

end Insights
